import Mathlib

/-!
Verification of the xgo build-orchestration helper (`xgo.go`).

The development shallowly embeds the dependency-cache loop of `main`
(lines 79-112), the workspace mount planner and invocation assembler of
`compile` (lines 146-233), and the Go standard-library string/path
primitives those functions call (`strings.Split`, `strings.Join`,
`strings.TrimSpace`, `strings.TrimPrefix`, `strings.Replace`,
`filepath.Join`/`Clean`, `filepath.Base`, `filepath.HasPrefix`,
`strconv.Itoa`).  External effects (the filesystem, the network, the
`go/build` resolver, `filepath.Walk`'s traversal order) are modelled as
oracle parameters; the functions are otherwise direct translations.
The host platform is Unix: `filepath.Separator` is `/` and
`os.PathListSeparator` is `:`.
-/

namespace Xgo

/-! ## Go string primitives (on `List Char`) -/

/-- `strings.Split s (string sep)` for a one-character separator `sep`,
on character lists: splits around every occurrence of `sep`; the empty
string yields `[[]]`.  All three `strings.Split` call sites in `xgo.go`
use a one-character separator (`" "`, `","`, `":"`). -/
def splitOnChar (sep : Char) : List Char → List (List Char)
  | [] => [[]]
  | c :: cs =>
    match splitOnChar sep cs with
    | [] => [[]]
    | g :: gs => if c = sep then [] :: g :: gs else (c :: g) :: gs

/-- `strings.Split` on `String`s, one-character separator. -/
def goSplit (s : String) (sep : Char) : List String :=
  (splitOnChar sep s.data).map (fun l => ⟨l⟩)

/-- `strings.Join elems sep`. -/
def goStringsJoin (elems : List String) (sep : String) : String :=
  match elems with
  | [] => ""
  | x :: xs => xs.foldl (fun acc e => acc ++ sep ++ e) x

/-- The whitespace class used by `strings.TrimSpace` (ASCII part of
`unicode.IsSpace`; the references handled by `xgo.go` are ASCII). -/
def isSpaceChar (c : Char) : Bool :=
  c = ' ' || c = '\t' || c = '\n' || c = '\x0b' || c = '\x0c' || c = '\r'

/-- `strings.TrimSpace`. -/
def goTrimSpace (s : String) : String :=
  ⟨((s.data.dropWhile isSpaceChar).reverse.dropWhile isSpaceChar).reverse⟩

/-- `strings.HasPrefix s pre` (also `filepath.HasPrefix`, which on Unix
is defined as exactly `strings.HasPrefix`). -/
def hasPrefixStr (s pre : String) : Bool :=
  pre.data.isPrefixOf s.data

/-- `strings.TrimPrefix s pre`. -/
def trimPrefixStr (s pre : String) : String :=
  if pre.data.isPrefixOf s.data then ⟨s.data.drop pre.data.length⟩ else s

/-- `strings.Replace s old new (-1)` (replace all, non-empty pattern),
fuel-structured so that it reduces in the kernel; a fuel of `s.length`
suffices because every step consumes at least one character.  The only
call site in `xgo.go` uses the one-character pattern `"*"`. -/
def goReplaceAllAux (old new : List Char) : Nat → List Char → List Char
  | _, [] => []
  | 0, s => s
  | fuel + 1, c :: cs =>
    if old.isPrefixOf (c :: cs) then
      new ++ goReplaceAllAux old new fuel ((c :: cs).drop old.length)
    else
      c :: goReplaceAllAux old new fuel cs

/-- `strings.Replace s old new (-1)` for non-empty `old`. -/
def goReplaceAll (s old new : String) : String :=
  ⟨goReplaceAllAux old.data new.data s.data.length s.data⟩

/-- Character-wise reading of the target-selector normalization: each
`*` becomes `.`, every other character (in particular `/`) is kept.
This is the specification's phrasing; it is proved equal to the
source's `strings.Replace` call. -/
def starToDot (s : String) : String :=
  ⟨s.data.map (fun c => if c = '*' then '.' else c)⟩

/-- `fmt.Sprintf "%v" b` for a `bool`. -/
def flagStr (b : Bool) : String := if b then "true" else "false"

/-! ## Go path primitives -/

/-- Join a list of path components with `/` (no cleaning);
`strings.Join comps "/"` on character lists. -/
def interJoin : List (List Char) → List Char
  | [] => []
  | [x] => x
  | x :: y :: t => x ++ '/' :: interJoin (y :: t)

/-- Resolve one `..` component against the processed stack `acc`
(most recent first): drop it at the root, keep it after leading `..`s
of a relative path, otherwise pop the previous component. -/
def dotdotPop (rooted : Bool) (acc : List (List Char)) : List (List Char) :=
  match acc with
  | [] => if rooted then [] else [['.', '.']]
  | top :: tl => if top = ['.', '.'] then ['.', '.'] :: top :: tl else tl

/-- The component pass of `filepath.Clean` (Unix): drop empty and `.`
components, resolve `..` via `dotdotPop`.  `acc` is the processed
stack, most recent first. -/
def cleanFold (rooted : Bool) : List (List Char) → List (List Char) → List (List Char)
  | [], acc => acc.reverse
  | c :: rest, acc =>
    if c = [] ∨ c = ['.'] then cleanFold rooted rest acc
    else if c = ['.', '.'] then cleanFold rooted rest (dotdotPop rooted acc)
    else cleanFold rooted rest (c :: acc)

/-- `filepath.Clean` (Unix): shortest lexically-equivalent path
(collapse slashes, drop `.`, resolve `..`, `"."` for the empty
result). -/
def goClean (s : String) : String :=
  match s.data with
  | [] => "."
  | c :: cs =>
    let rooted := c = '/'
    let comps := cleanFold rooted (splitOnChar '/' (c :: cs)) []
    let body := (if rooted then ['/'] else []) ++ interJoin comps
    if body = [] then "." else ⟨body⟩

/-- `filepath.Join` (Unix): `Clean` of the `/`-join of the elements
starting from the first non-empty one; `""` when all are empty. -/
def goJoin (elems : List String) : String :=
  match elems.dropWhile (fun e => e.data = []) with
  | [] => ""
  | es => goClean (goStringsJoin es "/")

/-- `filepath.Base` (Unix): `"."` for the empty path, `"/"` for
all-slash paths, otherwise the last component after stripping trailing
slashes. -/
def goBase (s : String) : String :=
  match s.data with
  | [] => "."
  | _ =>
    let t := s.data.reverse.dropWhile (fun c => c = '/')
    if t = [] then "/" else ⟨(t.takeWhile (fun c => c ≠ '/')).reverse⟩

/-- `strconv.Itoa`, digits built most-significant first; fuel-structured
(`fuel = n` suffices since `n / 10 < n`). -/
def decimalAux : Nat → Nat → List Char
  | 0, _ => []
  | fuel + 1, n =>
    if n = 0 then [] else decimalAux fuel (n / 10) ++ [Nat.digitChar (n % 10)]

/-- `strconv.Itoa n`: the decimal representation of `n`. -/
def itoa (n : Nat) : String :=
  if n = 0 then "0" else ⟨decimalAux n n⟩

/-! ## Data model and external world -/

/-- The slice of `os.FileInfo` that `compile`'s walk callback inspects:
`IsDir` and the `ModeSymlink` bit of `Mode`. -/
structure FileInfo where
  isDir : Bool
  isSymlink : Bool
deriving DecidableEq

/-- One call `filepath.Walk` makes to the callback of `compile`
(line 180): the visited path and the `os.FileInfo` argument.  `info =
none` models Go passing a nil `FileInfo`, which `Walk` does exactly
when `os.Lstat` on the walk root fails (e.g. the root does not
exist). -/
structure WalkEvent where
  path : String
  info : Option FileInfo
deriving DecidableEq

/-- The external world `main`/`compile` consult, as oracles:
`os.Getwd`, `filepath.Abs`, `os.Stat` (as the `FileInfo` slice above,
`none` = error), `filepath.EvalSymlinks` (`none` = error),
`build.ImportDir _ build.FindOnly` returning the canonical import path
(`none` = error), the sequence of callback calls `filepath.Walk` makes
below a given root, the `GOPATH` environment variable, and
`os.TempDir()`. -/
structure Sys where
  getwd : Option String
  absPath : String → Option String
  statFn : String → Option FileInfo
  evalSymlinks : String → Option String
  importDir : String → Option String
  walk : String → List WalkEvent
  gopath : String
  tmpDir : String

/-- `var depsCache = filepath.Join(os.TempDir(), "xgo-cache")`. -/
def depsCacheDir (tmpDir : String) : String :=
  goJoin [tmpDir, "xgo-cache"]

/-- Fatal outcomes: every `log.Fatalf` of the embedded code, plus
`nilInfoPanic` for the runtime panic the walk callback hits when
`filepath.Walk` hands it a nil `FileInfo` (line 182 evaluates
`info.Mode()` without checking `info`/`err`). -/
inductive Fatal where
  | getwdFailed
  | destResolveFailed
  | locateFailed
  | pathInvalid
  | importFailed
  | nilInfoPanic
deriving DecidableEq

/-- The three parallel slices `locals`, `mounts`, `paths` that
`compile` accumulates (line 159): host directories, their sandbox
mount paths, and the sandbox `GOPATH` prefixes. -/
structure PlanState where
  locals : List String
  mounts : List String
  paths : List String
deriving DecidableEq

/-! ## Workspace mount planner (`compile`, lines 177-207) -/

/-- The body of the `filepath.Walk` callback (lines 180-202) for one
visited entry, acting on the accumulated state.  `none` is the nil
`FileInfo` dereference panic; `some st` returns with the state
(possibly extended by one mount triple). -/
def walkStep (sys : Sys) (sources : String) (st : PlanState) (ev : WalkEvent) :
    Option PlanState :=
  match ev.info with
  | none => none
  | some info =>
    if info.isSymlink = false then some st
    else
      match sys.evalSymlinks ev.path with
      | none => some st
      | some target =>
        match sys.statFn target with
        | none => some st
        | some tinfo =>
          if tinfo.isDir = false then some st
          else if hasPrefixStr target sources then some st
          else
            let locals := st.locals ++ [target]
            some ⟨locals,
              st.mounts ++
                [goJoin ["/ext-go", itoa locals.length, "src", trimPrefixStr ev.path sources]],
              st.paths ++ [goJoin ["/ext-go", itoa locals.length]]⟩

/-- Run the walk callback over the calls `filepath.Walk` delivers. -/
def runWalk (sys : Sys) (sources : String) : PlanState → List WalkEvent → Option PlanState
  | st, [] => some st
  | st, ev :: evs =>
    match walkStep sys sources st ev with
    | none => none
    | some st' => runWalk sys sources st' evs

/-- The per-root epilogue (lines 203-206): export the main mount point
for this `GOPATH` entry. -/
def addRootMount (sources : String) (st : PlanState) : PlanState :=
  let locals := st.locals ++ [sources]
  ⟨locals,
   st.mounts ++ [goJoin ["/ext-go", itoa locals.length, "src"]],
   st.paths ++ [goJoin ["/ext-go", itoa locals.length]]⟩

/-- Process one `GOPATH` entry (lines 177-207): walk `<root>/src`,
then add the root mount. -/
def planRoot (sys : Sys) (st : PlanState) (gopath : String) : Option PlanState :=
  let sources := goJoin [gopath, "src"]
  match runWalk sys sources st (sys.walk sources) with
  | none => none
  | some st' => some (addRootMount sources st')

/-- Fold `planRoot` over the `GOPATH` entries. -/
def runRoots (sys : Sys) : PlanState → List String → Option PlanState
  | st, [] => some st
  | st, r :: rs =>
    match planRoot sys st r with
    | none => none
    | some st' => runRoots sys st' rs

/-- The whole mount planner: iterate over
`strings.Split(os.Getenv("GOPATH"), ":")` starting from empty
slices. -/
def planMounts (sys : Sys) : Option PlanState :=
  runRoots sys ⟨[], [], []⟩ (goSplit sys.gopath ':')

/-! ## Invocation assembler (`compile`, lines 209-231) -/

/-- The read-only volume arguments of the loop at lines 226-228:
`-v locals[i]:mounts[i]:ro` for each mount triple (the two slices
always have equal length; they are appended to in lockstep). -/
def mountArgs : List String → List String → List String
  | l :: ls, m :: ms => ["-v", l ++ ":" ++ m ++ ":ro"] ++ mountArgs ls ms
  | _, _ => []

/-- The `docker run` argument list of lines 212-231, from the already
resolved output folder, package reference and plan state. -/
def assembleArgs (sys : Sys) (folder repo image remote branch pack deps outPrefix : String)
    (verbose steps race : Bool) (targets : List String) (st : PlanState) : List String :=
  ["run", "--rm",
   "-v", folder ++ ":/build",
   "-v", depsCacheDir sys.tmpDir ++ ":/deps-cache:ro",
   "-e", "REPO_REMOTE=" ++ remote,
   "-e", "REPO_BRANCH=" ++ branch,
   "-e", "PACK=" ++ pack,
   "-e", "DEPS=" ++ deps,
   "-e", "OUT=" ++ outPrefix,
   "-e", "FLAG_V=" ++ flagStr verbose,
   "-e", "FLAG_X=" ++ flagStr steps,
   "-e", "FLAG_RACE=" ++ flagStr race,
   "-e", "TARGETS=" ++ goReplaceAll (goStringsJoin targets " ") "*" "."]
  ++ mountArgs st.locals st.mounts
  ++ ["-e", "EXT_GOPATH=" ++ goStringsJoin st.paths ":"]
  ++ [image, repo]

/-- Is the package reference a local filesystem path (line 160):
`strings.HasPrefix(repo, "/") || strings.HasPrefix(repo, ".")`. -/
def isLocal (repo : String) : Bool :=
  hasPrefixStr repo "/" || hasPrefixStr repo "."

/-- The output-folder resolution of `compile` (lines 147-157):
`os.Getwd`, overridden by `filepath.Abs(dest)` when `-dest` is
given. -/
def resolveFolder (sys : Sys) (dest : String) : Except Fatal String :=
  match sys.getwd with
  | none => .error .getwdFailed
  | some wd =>
    if dest = "" then .ok wd
    else
      match sys.absPath dest with
      | none => .error .destResolveFailed
      | some f => .ok f

/-- `compile` (lines 146-233) up to the assembled `docker` argument
list (the final `run(exec.Command(...))` delegates to the external
engine and is outside the model). -/
def compile (sys : Sys) (repo image remote branch pack deps dest outPrefix : String)
    (verbose steps race : Bool) (targets : List String) : Except Fatal (List String) :=
  match resolveFolder sys dest with
  | .error e => .error e
  | .ok folder =>
      if isLocal repo then
        match sys.absPath repo with
        | none => .error .locateFailed
        | some path =>
          match sys.statFn path with
          | none => .error .pathInvalid
          | some fi =>
            if fi.isDir = false then .error .pathInvalid
            else
              match sys.importDir path with
              | none => .error .importFailed
              | some importPath =>
                match planMounts sys with
                | none => .error .nilInfoPanic
                | some st =>
                  .ok (assembleArgs sys folder importPath image remote branch pack deps
                        outPrefix verbose steps race targets st)
      else
        .ok (assembleArgs sys folder repo image remote branch pack deps
              outPrefix verbose steps race targets ⟨[], [], []⟩)

/-! ## Dependency cache (`main`, lines 79-112) -/

/-- Failure injection for the dependency loop's external operations:
`os.MkdirAll` on the cache directory, `os.Create` of the output file,
`http.Get` of the reference, and `io.Copy` of the response body. -/
structure DepOps where
  mkdirOk : Bool
  createOk : String → Bool
  fetchOk : String → Bool
  copyOk : String → Bool

/-- The progress lines the loop prints. -/
inductive Report where
  | downloading (url : String)
  | newlyCached (path : String)
  | alreadyCached (path : String)
deriving DecidableEq

/-- The `log.Fatalf` exits of the dependency loop. -/
inductive DepFatal where
  | mkdirFailed
  | createFailed
  | fetchFailed
  | copyFailed
deriving DecidableEq

/-- Observable state of a dependency-loop run: the base filenames
present in the cache directory (`os.Stat` succeeds on
`depsCache/<base>` iff `base ∈ files`), the reports printed, and the
references actually fetched over the network. -/
structure DepState where
  files : List String
  reports : List Report
  fetches : List String
deriving DecidableEq

/-- One iteration of the loop at lines 84-111 for entry `dep`:
trim; skip when empty; derive `path = depsCache/Base(url)`; on a stat
hit report "already cached"; otherwise print "Downloading", create the
file (it exists from this point on), fetch, copy, report "newly
cached".  The second component is the fatal exit, if any. -/
def depStep (ops : DepOps) (cacheDir : String) (st : DepState) (dep : String) :
    DepState × Option DepFatal :=
  let url := goTrimSpace dep
  if 0 < url.data.length then
    let path := goJoin [cacheDir, goBase url]
    if goBase url ∈ st.files then
      ({ st with reports := st.reports ++ [.alreadyCached path] }, none)
    else
      let st1 := { st with reports := st.reports ++ [.downloading url] }
      if ops.createOk path = false then (st1, some .createFailed)
      else
        let st2 := { st1 with files := st1.files ++ [goBase url] }
        if ops.fetchOk url = false then (st2, some .fetchFailed)
        else
          let st3 := { st2 with fetches := st2.fetches ++ [url] }
          if ops.copyOk url = false then (st3, some .copyFailed)
          else ({ st3 with reports := st3.reports ++ [.newlyCached path] }, none)
  else (st, none)

/-- The dependency loop over a list of entries; a fatal exit stops
processing immediately. -/
def runDepList (ops : DepOps) (cacheDir : String) : DepState → List String → DepState × Option DepFatal
  | st, [] => (st, none)
  | st, d :: ds =>
    match depStep ops cacheDir st d with
    | (st', none) => runDepList ops cacheDir st' ds
    | (st', some e) => (st', some e)

/-- The whole dependency-cache phase of `main` (lines 79-112):
skipped when `-deps` is empty, else `os.MkdirAll` then the loop over
`strings.Split(crossDeps, " ")`.  `files0` is the prior content of the
cache directory. -/
def cacheDeps (ops : DepOps) (tmpDir crossDeps : String) (files0 : List String) :
    DepState × Option DepFatal :=
  if crossDeps = "" then (⟨files0, [], []⟩, none)
  else if ops.mkdirOk = false then (⟨files0, [], []⟩, some .mkdirFailed)
  else runDepList ops (depsCacheDir tmpDir) ⟨files0, [], []⟩ (goSplit crossDeps ' ')

/-! ## Splitting and joining: helper lemmas -/

theorem splitOnChar_ne_nil (sep : Char) (l : List Char) : splitOnChar sep l ≠ [] := by
  cases l with
  | nil => simp [splitOnChar]
  | cons c cs =>
    rw [splitOnChar]
    cases h : splitOnChar sep cs with
    | nil => simp
    | cons g gs => by_cases hc : c = sep <;> simp [hc]

theorem splitOnChar_cons_sep (sep : Char) (cs : List Char) :
    splitOnChar sep (sep :: cs) = [] :: splitOnChar sep cs := by
  rw [splitOnChar]
  cases h : splitOnChar sep cs with
  | nil => exact absurd h (splitOnChar_ne_nil sep cs)
  | cons g gs => simp [← h]

theorem splitOnChar_no_sep (sep : Char) (xs : List Char) (h : sep ∉ xs) :
    splitOnChar sep xs = [xs] := by
  induction xs with
  | nil => rfl
  | cons c cs ih =>
    have hc : c ≠ sep := fun e => h (e ▸ List.mem_cons_self c cs)
    have hcs : sep ∉ cs := fun hm => h (List.mem_cons_of_mem c hm)
    rw [splitOnChar, ih hcs]
    simp [hc]

theorem splitOnChar_append (sep : Char) (xs ys : List Char) (h : sep ∉ xs) :
    splitOnChar sep (xs ++ sep :: ys) = xs :: splitOnChar sep ys := by
  induction xs with
  | nil => simpa using splitOnChar_cons_sep sep ys
  | cons c cs ih =>
    have hc : c ≠ sep := fun e => h (e ▸ List.mem_cons_self c cs)
    have hcs : sep ∉ cs := fun hm => h (List.mem_cons_of_mem c hm)
    rw [List.cons_append, splitOnChar, ih hcs]
    simp [hc]

theorem interJoin_cons (x : List Char) (rest : List (List Char)) (h : rest ≠ []) :
    interJoin (x :: rest) = x ++ '/' :: interJoin rest := by
  cases rest with
  | nil => exact absurd rfl h
  | cons y t => rfl

theorem interJoin_cons_cons (c : Char) (g : List Char) (gs : List (List Char)) :
    interJoin ((c :: g) :: gs) = c :: interJoin (g :: gs) := by
  cases gs with
  | nil => rfl
  | cons y t => rfl

theorem interJoin_splitOnChar (l : List Char) :
    interJoin (splitOnChar '/' l) = l := by
  induction l with
  | nil => rfl
  | cons c cs ih =>
    by_cases hc : c = '/'
    · subst hc
      rw [splitOnChar_cons_sep, interJoin_cons _ _ (splitOnChar_ne_nil _ _), ih]
      rfl
    · rw [splitOnChar]
      cases h : splitOnChar '/' cs with
      | nil => exact absurd h (splitOnChar_ne_nil _ _)
      | cons g gs =>
        simp only [if_neg hc]
        rw [interJoin_cons_cons, ← h, ih]

/-! ## `goClean` on well-shaped paths -/

theorem cleanFold_of_plain (rooted : Bool) (segs acc : List (List Char))
    (h : ∀ s ∈ segs, s ≠ ['.'] ∧ s ≠ ['.', '.']) :
    cleanFold rooted segs acc = acc.reverse ++ segs.filter (fun s => s ≠ []) := by
  induction segs generalizing acc with
  | nil => simp [cleanFold]
  | cons s rest ih =>
    have hs := h s (List.mem_cons_self s rest)
    have hrest : ∀ x ∈ rest, x ≠ ['.'] ∧ x ≠ ['.', '.'] :=
      fun x hx => h x (List.mem_cons_of_mem s hx)
    by_cases hnil : s = []
    · subst hnil
      rw [cleanFold, if_pos (Or.inl rfl), ih acc hrest]
      simp
    · have h1 : ¬(s = [] ∨ s = ['.']) := by
        rintro (e | e)
        · exact hnil e
        · exact hs.1 e
      rw [cleanFold, if_neg h1, if_neg hs.2, ih (s :: acc) hrest]
      simp [hnil]

/-- `goClean` on a rooted path whose components contain no `.` or
`..`: only empty components (duplicate slashes) are dropped. -/
theorem goClean_abs (s : String) (body : List Char) (hs : s.data = '/' :: body)
    (h : ∀ t ∈ splitOnChar '/' body, t ≠ ['.'] ∧ t ≠ ['.', '.']) :
    goClean s = ⟨'/' :: interJoin ((splitOnChar '/' body).filter (fun t => t ≠ []))⟩ := by
  rw [goClean, hs]
  simp only [splitOnChar_cons_sep]
  rw [cleanFold, if_pos (Or.inl rfl), cleanFold_of_plain _ _ _ h]
  simp

/-! ## Decimal digits: helper lemmas -/

theorem digitChar_facts : ∀ d, d < 10 →
    (Nat.digitChar d).isDigit = true ∧ (Nat.digitChar d).toNat = 48 + d := by
  decide

theorem decimalAux_digits (fuel : Nat) :
    ∀ n c, c ∈ decimalAux fuel n → c.isDigit = true := by
  induction fuel with
  | zero => intro n c hc; simp [decimalAux] at hc
  | succ f ih =>
    intro n c hc
    rw [decimalAux] at hc
    by_cases hn : n = 0
    · simp [hn] at hc
    · rw [if_neg hn] at hc
      rcases List.mem_append.1 hc with h | h
      · exact ih _ c h
      · rw [List.mem_singleton] at h
        subst h
        exact (digitChar_facts _ (Nat.mod_lt n (by norm_num))).1

/-- Decimal decoding, inverse to `decimalAux`/`itoa` on digit lists. -/
def decodeDigits (l : List Char) : Nat :=
  l.foldl (fun a c => 10 * a + (c.toNat - 48)) 0

theorem decode_decimalAux : ∀ fuel n, n ≤ fuel → decodeDigits (decimalAux fuel n) = n := by
  intro fuel
  induction fuel with
  | zero =>
    intro n hn
    interval_cases n
    rfl
  | succ f ih =>
    intro n hn
    by_cases hn0 : n = 0
    · subst hn0; rfl
    · rw [decimalAux, if_neg hn0, decodeDigits, List.foldl_append]
      have hdiv : n / 10 < n := Nat.div_lt_self (Nat.pos_of_ne_zero hn0) (by norm_num)
      have ihd : decodeDigits (decimalAux f (n / 10)) = n / 10 := ih (n / 10) (by omega)
      rw [decodeDigits] at ihd
      rw [ihd]
      have hmod := (digitChar_facts (n % 10) (Nat.mod_lt n (by norm_num))).2
      simp only [List.foldl_cons, List.foldl_nil, hmod]
      omega

theorem itoa_data_of_pos (n : Nat) (hn : 0 < n) : (itoa n).data = decimalAux n n := by
  rw [itoa, if_neg (Nat.pos_iff_ne_zero.1 hn)]

theorem itoa_digits (n : Nat) : ∀ c ∈ (itoa n).data, c.isDigit = true := by
  by_cases hn : n = 0
  · subst hn; decide
  · rw [itoa_data_of_pos n (Nat.pos_of_ne_zero hn)]
    exact decimalAux_digits n n

theorem decode_itoa (n : Nat) (hn : 0 < n) : decodeDigits (itoa n).data = n := by
  rw [itoa_data_of_pos n hn]
  exact decode_decimalAux n n le_rfl

theorem itoa_ne_nil (n : Nat) : (itoa n).data ≠ [] := by
  by_cases hn : n = 0
  · subst hn; decide
  · rw [itoa_data_of_pos n (Nat.pos_of_ne_zero hn)]
    obtain ⟨f, rfl⟩ : ∃ f, n = f + 1 := ⟨n - 1, by omega⟩
    rw [decimalAux, if_neg hn]
    simp

/-- A path component is inert under `filepath.Clean`: non-empty, not
`.` or `..`, and slash-free. -/
def goodSeg (seg : List Char) : Prop :=
  seg ≠ [] ∧ seg ≠ ['.'] ∧ seg ≠ ['.', '.'] ∧ '/' ∉ seg

instance goodSeg.instDecidable (seg : List Char) : Decidable (goodSeg seg) :=
  decidable_of_iff (seg ≠ [] ∧ seg ≠ ['.'] ∧ seg ≠ ['.', '.'] ∧ '/' ∉ seg) Iff.rfl

theorem goodSeg_of_digits (l : List Char) (hne : l ≠ [])
    (h : ∀ c ∈ l, c.isDigit = true) : goodSeg l := by
  refine ⟨hne, ?_, ?_, ?_⟩
  · rintro rfl
    have := h '.' (List.mem_singleton.2 rfl)
    simp at this
  · rintro rfl
    have := h '.' (by simp)
    simp at this
  · intro hm
    have := h '/' hm
    simp at this

theorem itoa_goodSeg (n : Nat) : goodSeg (itoa n).data :=
  goodSeg_of_digits _ (itoa_ne_nil n) (itoa_digits n)

/-! ## `goJoin` on the sandbox-path shapes built by `compile` -/

theorem splitOnChar_interJoin (parts : List (List Char)) (hne : parts ≠ [])
    (hfree : ∀ t ∈ parts, '/' ∉ t) :
    splitOnChar '/' (interJoin parts) = parts := by
  induction parts with
  | nil => exact absurd rfl hne
  | cons x rest ih =>
    cases rest with
    | nil => exact splitOnChar_no_sep '/' x (hfree x (List.mem_cons_self x []))
    | cons y t =>
      rw [interJoin_cons x (y :: t) (by simp),
        splitOnChar_append '/' x _ (hfree x (List.mem_cons_self x (y :: t))),
        ih (by simp) (fun s hs => hfree s (List.mem_cons_of_mem x hs))]

/-- `goClean` of a rooted path assembled from slash-free components
none of which is `.` or `..`: the empty components drop out and the
rest survive in order. -/
theorem goClean_parts (s : String) (parts : List (List Char))
    (hs : s.data = '/' :: interJoin parts) (hne : parts ≠ [])
    (hfree : ∀ t ∈ parts, '/' ∉ t)
    (hgood : ∀ t ∈ parts, t ≠ ['.'] ∧ t ≠ ['.', '.']) :
    goClean s = ⟨'/' :: interJoin (parts.filter (fun t => t ≠ []))⟩ := by
  rw [goClean_abs s (interJoin parts) hs
    (by rw [splitOnChar_interJoin parts hne hfree]; exact hgood),
    splitOnChar_interJoin parts hne hfree]

theorem goJoin_cons_ne (x : String) (xs : List String) (hx : ¬(x.data = [])) :
    goJoin (x :: xs) = goClean (goStringsJoin (x :: xs) "/") := by
  rw [goJoin, List.dropWhile_cons]
  simp [hx]

theorem allSegs_cons {P : List Char → Prop} {a : List Char} {l : List (List Char)}
    (ha : P a) (hl : ∀ t ∈ l, P t) : ∀ t ∈ a :: l, P t := by
  intro t ht
  rcases List.mem_cons.1 ht with rfl | h
  · exact ha
  · exact hl t h

theorem allSegs_nil {P : List Char → Prop} : ∀ t ∈ ([] : List (List Char)), P t :=
  fun t ht => absurd ht (List.not_mem_nil t)

theorem goJoin_extgo (k : Nat) :
    (goJoin ["/ext-go", itoa k]).data = "/ext-go/".data ++ (itoa k).data := by
  rw [goJoin_cons_ne _ _ (by decide)]
  have hda : (goStringsJoin ["/ext-go", itoa k] "/").data =
      '/' :: interJoin ["ext-go".data, (itoa k).data] := by
    show ("/ext-go" ++ "/" ++ itoa k).data = _
    rw [interJoin_cons _ _ (by simp), interJoin]
    simp [String.data_append]
  have hD := itoa_goodSeg k
  rw [goClean_parts _ ["ext-go".data, (itoa k).data] hda (by simp)
    (allSegs_cons (by decide) (allSegs_cons hD.2.2.2 allSegs_nil))
    (allSegs_cons (by decide) (allSegs_cons ⟨hD.2.1, hD.2.2.1⟩ allSegs_nil))]
  have hfil : (["ext-go".data, (itoa k).data].filter (fun t => t ≠ [])) =
      ["ext-go".data, (itoa k).data] :=
    List.filter_eq_self.2
      (allSegs_cons (by decide) (allSegs_cons (by simp [hD.1]) allSegs_nil))
  rw [hfil]
  show ('/' :: interJoin _ : List Char) = _
  rw [interJoin_cons _ _ (by simp), interJoin]
  simp

theorem goJoin_extgo_src (k : Nat) :
    (goJoin ["/ext-go", itoa k, "src"]).data =
      "/ext-go/".data ++ (itoa k).data ++ '/' :: "src".data := by
  rw [goJoin_cons_ne _ _ (by decide)]
  have hda : (goStringsJoin ["/ext-go", itoa k, "src"] "/").data =
      '/' :: interJoin ["ext-go".data, (itoa k).data, "src".data] := by
    show ("/ext-go" ++ "/" ++ itoa k ++ "/" ++ "src").data = _
    rw [interJoin_cons _ _ (by simp), interJoin_cons _ _ (by simp), interJoin]
    simp [String.data_append]
  have hD := itoa_goodSeg k
  rw [goClean_parts _ ["ext-go".data, (itoa k).data, "src".data] hda (by simp)
    (allSegs_cons (by decide)
      (allSegs_cons hD.2.2.2 (allSegs_cons (by decide) allSegs_nil)))
    (allSegs_cons (by decide)
      (allSegs_cons ⟨hD.2.1, hD.2.2.1⟩ (allSegs_cons (by decide) allSegs_nil)))]
  have hfil : (["ext-go".data, (itoa k).data, "src".data].filter (fun t => t ≠ [])) =
      ["ext-go".data, (itoa k).data, "src".data] :=
    List.filter_eq_self.2
      (allSegs_cons (by decide)
        (allSegs_cons (by simp [hD.1]) (allSegs_cons (by decide) allSegs_nil)))
  rw [hfil]
  show ('/' :: interJoin _ : List Char) = _
  rw [interJoin_cons _ _ (by simp), interJoin_cons _ _ (by simp), interJoin]
  simp

theorem goJoin_extgo_src_empty (k : Nat) :
    (goJoin ["/ext-go", itoa k, "src", ""]).data =
      "/ext-go/".data ++ (itoa k).data ++ '/' :: "src".data := by
  rw [goJoin_cons_ne _ _ (by decide)]
  have hda : (goStringsJoin ["/ext-go", itoa k, "src", ""] "/").data =
      '/' :: interJoin ["ext-go".data, (itoa k).data, "src".data, []] := by
    show ("/ext-go" ++ "/" ++ itoa k ++ "/" ++ "src" ++ "/" ++ "").data = _
    rw [interJoin_cons _ _ (by simp), interJoin_cons _ _ (by simp),
      interJoin_cons _ _ (by simp), interJoin]
    simp [String.data_append]
  have hD := itoa_goodSeg k
  rw [goClean_parts _ ["ext-go".data, (itoa k).data, "src".data, []] hda (by simp)
    (allSegs_cons (by decide)
      (allSegs_cons hD.2.2.2
        (allSegs_cons (by decide) (allSegs_cons (by decide) allSegs_nil))))
    (allSegs_cons (by decide)
      (allSegs_cons ⟨hD.2.1, hD.2.2.1⟩
        (allSegs_cons (by decide) (allSegs_cons (by decide) allSegs_nil))))]
  have hfil : (["ext-go".data, (itoa k).data, "src".data, []].filter (fun t => t ≠ []))
      = ["ext-go".data, (itoa k).data, "src".data] := by
    have h1 : decide (("ext-go".data : List Char) ≠ []) = true := by decide
    have h3 : decide (("src".data : List Char) ≠ []) = true := by decide
    have h4 : decide (([] : List Char) ≠ []) = false := by decide
    have h2 : decide ((itoa k).data ≠ []) = true := decide_eq_true hD.1
    simp only [List.filter, h1, h2, h3, h4]
  rw [hfil]
  show ('/' :: interJoin _ : List Char) = _
  rw [interJoin_cons _ _ (by simp), interJoin_cons _ _ (by simp), interJoin]
  simp

theorem goJoin_extgo_src_rel (k : Nat) (rel : List Char)
    (hrel : ∀ seg ∈ splitOnChar '/' rel, goodSeg seg) :
    (goJoin ["/ext-go", itoa k, "src", ⟨'/' :: rel⟩]).data =
      "/ext-go/".data ++ (itoa k).data ++ '/' :: ("src".data ++ '/' :: rel) := by
  rw [goJoin_cons_ne _ _ (by decide)]
  have hfreeRel : ∀ t ∈ splitOnChar '/' rel, '/' ∉ t :=
    fun t ht => (hrel t ht).2.2.2
  have hda : (goStringsJoin ["/ext-go", itoa k, "src", ⟨'/' :: rel⟩] "/").data =
      '/' :: interJoin ("ext-go".data :: (itoa k).data :: "src".data :: []
        :: splitOnChar '/' rel) := by
    show ("/ext-go" ++ "/" ++ itoa k ++ "/" ++ "src" ++ "/" ++ ⟨'/' :: rel⟩).data = _
    rw [interJoin_cons _ _ (by simp), interJoin_cons _ _ (by simp),
      interJoin_cons _ _ (by simp),
      interJoin_cons _ _ (splitOnChar_ne_nil '/' rel), interJoin_splitOnChar]
    simp [String.data_append]
  have hD := itoa_goodSeg k
  rw [goClean_parts _ _ hda (by simp)
    (allSegs_cons (by decide)
      (allSegs_cons hD.2.2.2
        (allSegs_cons (by decide) (allSegs_cons (by decide) hfreeRel))))
    (allSegs_cons (by decide)
      (allSegs_cons ⟨hD.2.1, hD.2.2.1⟩
        (allSegs_cons (by decide)
          (allSegs_cons (by decide)
            (fun t ht => ⟨(hrel t ht).2.1, (hrel t ht).2.2.1⟩)))))]
  have hfilRel : (splitOnChar '/' rel).filter (fun t => t ≠ []) = splitOnChar '/' rel :=
    List.filter_eq_self.2 (fun t ht => by simp [(hrel t ht).1])
  have hfil : (("ext-go".data :: (itoa k).data :: "src".data :: []
      :: splitOnChar '/' rel).filter (fun t => t ≠ []))
      = "ext-go".data :: (itoa k).data :: "src".data :: splitOnChar '/' rel := by
    have h1 : decide (("ext-go".data : List Char) ≠ []) = true := by decide
    have h3 : decide (("src".data : List Char) ≠ []) = true := by decide
    have h4 : decide (([] : List Char) ≠ []) = false := by decide
    have h2 : decide ((itoa k).data ≠ []) = true := decide_eq_true hD.1
    simp only [List.filter, h1, h2, h3, h4]
    rw [hfilRel]
  rw [hfil]
  show ('/' :: interJoin _ : List Char) = _
  rw [interJoin_cons _ _ (by simp), interJoin_cons _ _ (by simp),
    interJoin_cons _ _ (splitOnChar_ne_nil '/' rel), interJoin_splitOnChar]
  simp

/-! ## The mount-plan invariant: numbering and uniqueness -/

/-- What `filepath.Walk` guarantees about a delivered callback call on
an existing tree: a real `FileInfo`, and a visited path that is the
root itself or the root plus a `/`-joined chain of directory-entry
names (entries are never empty, `.`, `..`, or slash-containing). -/
def goodEvent (sources : String) (ev : WalkEvent) : Prop :=
  ∃ fi, ev.info = some fi ∧
    (ev.path = sources ∨
     ∃ rel, ev.path.data = sources.data ++ '/' :: rel ∧
       ∀ seg ∈ splitOnChar '/' rel, goodSeg seg)

/-- Invariant of the planner state: the three slices run in lockstep
and the `i`-th sandbox mount path (0-based) reads
`/ext-go/<i+1>/...`. -/
def MountShapes (st : PlanState) : Prop :=
  st.locals.length = st.mounts.length ∧ st.paths.length = st.mounts.length ∧
  ∀ i (h : i < st.mounts.length), ∃ r,
    (st.mounts.get ⟨i, h⟩).data = "/ext-go/".data ++ (itoa (i + 1)).data ++ '/' :: r

theorem mountShapes_nil : MountShapes ⟨[], [], []⟩ := by
  refine ⟨rfl, rfl, ?_⟩
  intro i h
  simp at h

theorem mountShapes_append (st : PlanState) (l m p : String) (r : List Char)
    (hst : MountShapes st)
    (hm : m.data = "/ext-go/".data ++ (itoa (st.mounts.length + 1)).data ++ '/' :: r) :
    MountShapes ⟨st.locals ++ [l], st.mounts ++ [m], st.paths ++ [p]⟩ := by
  obtain ⟨h1, h2, h3⟩ := hst
  refine ⟨by simp [h1], by simp [h2], ?_⟩
  intro i hi
  simp only [List.length_append, List.length_cons, List.length_nil] at hi
  by_cases hlt : i < st.mounts.length
  · obtain ⟨r0, hr0⟩ := h3 i hlt
    refine ⟨r0, ?_⟩
    show ((st.mounts ++ [m]).get ⟨i, _⟩).data = _
    rw [List.get_append i hlt]
    exact hr0
  · have heq : i = st.mounts.length := by omega
    subst heq
    refine ⟨r, ?_⟩
    show ((st.mounts ++ [m]).get ⟨st.mounts.length, _⟩).data = _
    rw [List.get_append_right st.mounts [m] le_rfl]
    · simpa using hm
    · simp

theorem walkStep_shapes {sys : Sys} {sources : String} {st st' : PlanState}
    {ev : WalkEvent} (hgood : goodEvent sources ev) (hst : MountShapes st)
    (h : walkStep sys sources st ev = some st') : MountShapes st' := by
  obtain ⟨fi, hinfo, hpath⟩ := hgood
  simp only [walkStep, hinfo] at h
  by_cases hsym : fi.isSymlink = false
  · rw [if_pos hsym] at h
    cases h
    exact hst
  · rw [if_neg hsym] at h
    cases hres : sys.evalSymlinks ev.path with
    | none =>
      simp only [hres] at h
      cases h
      exact hst
    | some target =>
      simp only [hres] at h
      cases hstat : sys.statFn target with
      | none =>
        simp only [hstat] at h
        cases h
        exact hst
      | some tinfo =>
        simp only [hstat] at h
        by_cases hdir : tinfo.isDir = false
        · rw [if_pos hdir] at h
          cases h
          exact hst
        · rw [if_neg hdir] at h
          by_cases hpre : hasPrefixStr target sources = true
          · rw [if_pos hpre] at h
            cases h
            exact hst
          · rw [if_neg hpre] at h
            cases h
            have hlen : st.locals.length + 1 = st.mounts.length + 1 := by
              rw [hst.1]
            rcases hpath with hpe | ⟨rel, hrd, hgs⟩
            · have htrim : trimPrefixStr ev.path sources = "" := by
                rw [hpe, trimPrefixStr,
                  if_pos (List.isPrefixOf_iff_prefix.2 (List.prefix_refl _))]
                apply String.ext
                simp
              rw [htrim]
              simp only [List.length_append, List.length_cons, List.length_nil, hst.1]
              exact mountShapes_append st target _ _ "src".data hst
                (goJoin_extgo_src_empty (st.mounts.length + 1))
            · have hpref : sources.data.isPrefixOf ev.path.data = true := by
                rw [hrd]
                exact List.isPrefixOf_iff_prefix.2 (List.prefix_append _ _)
              have htrim : trimPrefixStr ev.path sources = ⟨'/' :: rel⟩ := by
                rw [trimPrefixStr, if_pos hpref, hrd, List.drop_left]
              rw [htrim]
              simp only [List.length_append, List.length_cons, List.length_nil, hst.1]
              exact mountShapes_append st target _ _ ("src".data ++ '/' :: rel) hst
                (goJoin_extgo_src_rel (st.mounts.length + 1) rel hgs)

theorem runWalk_shapes {sys : Sys} {sources : String} {st st' : PlanState}
    {evs : List WalkEvent} (hgood : ∀ ev ∈ evs, goodEvent sources ev)
    (hst : MountShapes st) (h : runWalk sys sources st evs = some st') :
    MountShapes st' := by
  induction evs generalizing st with
  | nil =>
    rw [runWalk] at h
    cases h
    exact hst
  | cons ev rest ih =>
    rw [runWalk] at h
    cases hw : walkStep sys sources st ev with
    | none => rw [hw] at h; cases h
    | some st1 =>
      rw [hw] at h
      exact ih (fun e he => hgood e (List.mem_cons_of_mem ev he))
        (walkStep_shapes (hgood ev (List.mem_cons_self ev rest)) hst hw) h

theorem addRootMount_shapes (sources : String) (st : PlanState)
    (hst : MountShapes st) : MountShapes (addRootMount sources st) := by
  rw [addRootMount]
  simp only [List.length_append, List.length_cons, List.length_nil, hst.1]
  exact mountShapes_append st sources _ _ "src".data hst
    (goJoin_extgo_src (st.mounts.length + 1))

theorem planRoot_shapes {sys : Sys} {st st' : PlanState} {root : String}
    (hgood : ∀ ev ∈ sys.walk (goJoin [root, "src"]), goodEvent (goJoin [root, "src"]) ev)
    (hst : MountShapes st) (h : planRoot sys st root = some st') : MountShapes st' := by
  rw [planRoot] at h
  cases hw : runWalk sys (goJoin [root, "src"]) st (sys.walk (goJoin [root, "src"])) with
  | none => rw [hw] at h; cases h
  | some st1 =>
    rw [hw] at h
    cases h
    exact addRootMount_shapes _ _ (runWalk_shapes hgood hst hw)

theorem runRoots_shapes {sys : Sys} {st st' : PlanState} {roots : List String}
    (hgood : ∀ root ∈ roots, ∀ ev ∈ sys.walk (goJoin [root, "src"]),
      goodEvent (goJoin [root, "src"]) ev)
    (hst : MountShapes st) (h : runRoots sys st roots = some st') : MountShapes st' := by
  induction roots generalizing st with
  | nil =>
    rw [runRoots] at h
    cases h
    exact hst
  | cons root rest ih =>
    rw [runRoots] at h
    cases hr : planRoot sys st root with
    | none => rw [hr] at h; cases h
    | some st1 =>
      rw [hr] at h
      exact ih (fun x hx => hgood x (List.mem_cons_of_mem root hx))
        (planRoot_shapes (hgood root (List.mem_cons_self root rest)) hst hr) h

/-- Recover the ordinal of a sandbox mount path: the decimal block
between `/ext-go/` (8 characters) and the next slash. -/
def mountIndex (s : String) : Nat :=
  decodeDigits ((s.data.drop 8).takeWhile (fun c => c != '/'))

theorem takeWhile_digits_append (ds r : List Char) (h : ∀ c ∈ ds, c.isDigit = true) :
    (ds ++ '/' :: r).takeWhile (fun c => c != '/') = ds := by
  induction ds with
  | nil => simp
  | cons c cs ih =>
    have hc : (c != '/') = true := by
      have hd := h c (List.mem_cons_self c cs)
      by_cases hc0 : c = '/'
      · subst hc0; simp at hd
      · simp [hc0]
    simp only [List.cons_append, List.takeWhile_cons, hc, if_true]
    rw [ih (fun x hx => h x (List.mem_cons_of_mem c hx))]

theorem mountIndex_of_shape (s : String) (k : Nat) (r : List Char) (hk : 0 < k)
    (h : s.data = "/ext-go/".data ++ (itoa k).data ++ '/' :: r) :
    mountIndex s = k := by
  rw [mountIndex, h, List.append_assoc, List.drop_left' (by decide),
    takeWhile_digits_append _ _ (itoa_digits k)]
  exact decode_itoa k hk

theorem mountShapes_nodup (st : PlanState) (hst : MountShapes st) :
    st.mounts.Nodup := by
  rw [List.nodup_iff_injective_get]
  intro i j hij
  obtain ⟨r1, e1⟩ := hst.2.2 i.1 i.2
  obtain ⟨r2, e2⟩ := hst.2.2 j.1 j.2
  have h1 : mountIndex (st.mounts.get i) = i.1 + 1 :=
    mountIndex_of_shape _ _ _ (by omega) e1
  have h2 : mountIndex (st.mounts.get j) = j.1 + 1 :=
    mountIndex_of_shape _ _ _ (by omega) e2
  have := congrArg mountIndex hij
  rw [h1, h2] at this
  exact Fin.ext (by omega)

/-! ## Dependency-loop helper lemmas -/

theorem depStep_empty (ops : DepOps) (cacheDir : String) (st : DepState) (dep : String)
    (h : (goTrimSpace dep).data = []) :
    depStep ops cacheDir st dep = (st, none) := by
  simp [depStep, h]

theorem depStep_hit (ops : DepOps) (cacheDir : String) (st : DepState) (dep url : String)
    (htrim : goTrimSpace dep = url) (hne : url.data ≠ [])
    (hmem : goBase url ∈ st.files) :
    depStep ops cacheDir st dep =
      ({ st with reports := st.reports ++ [.alreadyCached (goJoin [cacheDir, goBase url])] },
       none) := by
  simp only [depStep, htrim]
  rw [if_pos (List.length_pos.2 hne), if_pos hmem]

theorem depStep_miss_ok (ops : DepOps) (cacheDir : String) (st : DepState) (dep url : String)
    (htrim : goTrimSpace dep = url) (hne : url.data ≠ [])
    (hmem : goBase url ∉ st.files)
    (hc : ops.createOk (goJoin [cacheDir, goBase url]) = true)
    (hf : ops.fetchOk url = true) (hcp : ops.copyOk url = true) :
    depStep ops cacheDir st dep =
      (⟨st.files ++ [goBase url],
        st.reports ++ [.downloading url, .newlyCached (goJoin [cacheDir, goBase url])],
        st.fetches ++ [url]⟩, none) := by
  simp only [depStep, htrim]
  rw [if_pos (List.length_pos.2 hne), if_neg hmem, if_neg (by simp [hc]),
    if_neg (by simp [hf]), if_neg (by simp [hcp])]
  simp

theorem depStep_miss_createFail (ops : DepOps) (cacheDir : String) (st : DepState)
    (dep url : String) (htrim : goTrimSpace dep = url) (hne : url.data ≠ [])
    (hmem : goBase url ∉ st.files)
    (hc : ops.createOk (goJoin [cacheDir, goBase url]) = false) :
    depStep ops cacheDir st dep =
      ({ st with reports := st.reports ++ [.downloading url] }, some .createFailed) := by
  simp only [depStep, htrim]
  rw [if_pos (List.length_pos.2 hne), if_neg hmem, if_pos hc]

theorem depStep_miss_fetchFail (ops : DepOps) (cacheDir : String) (st : DepState)
    (dep url : String) (htrim : goTrimSpace dep = url) (hne : url.data ≠ [])
    (hmem : goBase url ∉ st.files)
    (hc : ops.createOk (goJoin [cacheDir, goBase url]) = true)
    (hf : ops.fetchOk url = false) :
    depStep ops cacheDir st dep =
      (⟨st.files ++ [goBase url], st.reports ++ [.downloading url], st.fetches⟩,
       some .fetchFailed) := by
  simp only [depStep, htrim]
  rw [if_pos (List.length_pos.2 hne), if_neg hmem, if_neg (by simp [hc]), if_pos hf]

theorem depStep_miss_copyFail (ops : DepOps) (cacheDir : String) (st : DepState)
    (dep url : String) (htrim : goTrimSpace dep = url) (hne : url.data ≠ [])
    (hmem : goBase url ∉ st.files)
    (hc : ops.createOk (goJoin [cacheDir, goBase url]) = true)
    (hf : ops.fetchOk url = true) (hcp : ops.copyOk url = false) :
    depStep ops cacheDir st dep =
      (⟨st.files ++ [goBase url], st.reports ++ [.downloading url], st.fetches ++ [url]⟩,
       some .copyFailed) := by
  simp only [depStep, htrim]
  rw [if_pos (List.length_pos.2 hne), if_neg hmem, if_neg (by simp [hc]),
    if_neg (by simp [hf]), if_pos hcp]

theorem runDepList_append_ok (ops : DepOps) (cacheDir : String) (st st1 : DepState)
    (pre rest : List String) (h : runDepList ops cacheDir st pre = (st1, none)) :
    runDepList ops cacheDir st (pre ++ rest) = runDepList ops cacheDir st1 rest := by
  induction pre generalizing st with
  | nil =>
    rw [runDepList] at h
    cases h
    rfl
  | cons d ds ih =>
    rw [runDepList] at h
    rw [List.cons_append, runDepList]
    rcases hd : depStep ops cacheDir st d with ⟨st2, oe⟩
    cases oe with
    | none =>
      simp only [hd] at h ⊢
      exact ih st2 h
    | some e =>
      rw [hd] at h
      simp at h

theorem runDepList_cons_fatal (ops : DepOps) (cacheDir : String) (st st' : DepState)
    (d : String) (e : DepFatal) (ds : List String)
    (h : depStep ops cacheDir st d = (st', some e)) :
    runDepList ops cacheDir st (d :: ds) = (st', some e) := by
  rw [runDepList]
  simp only [h]

/-! ## Targets normalization: `strings.Replace` vs character map -/

theorem goReplaceAllAux_star (fuel : Nat) (l : List Char) (h : l.length ≤ fuel) :
    goReplaceAllAux ['*'] ['.'] fuel l =
      l.map (fun c => if c = '*' then '.' else c) := by
  induction fuel generalizing l with
  | zero =>
    cases l with
    | nil => rfl
    | cons c cs => simp at h
  | succ f ih =>
    cases l with
    | nil => rfl
    | cons c cs =>
      rw [goReplaceAllAux]
      by_cases hc : c = '*'
      · subst hc
        rw [if_pos (by simp [List.isPrefixOf])]
        simp only [List.length_cons] at h
        simp [ih cs (by omega)]
      · rw [if_neg (by simp [List.isPrefixOf]; exact fun e => hc e.symm)]
        simp only [List.length_cons] at h
        simp [hc, ih cs (by omega)]

theorem goReplaceAll_star (s : String) : goReplaceAll s "*" "." = starToDot s := by
  rw [goReplaceAll, starToDot]
  exact congrArg String.mk (goReplaceAllAux_star s.data.length s.data le_rfl)

/-! ## Walks without symlinks -/

theorem runWalk_skip (sys : Sys) (sources : String) (st : PlanState)
    (evs : List WalkEvent)
    (h : ∀ ev ∈ evs, ∃ fi, ev.info = some fi ∧ fi.isSymlink = false) :
    runWalk sys sources st evs = some st := by
  induction evs with
  | nil => rfl
  | cons ev rest ih =>
    obtain ⟨fi, hinfo, hsym⟩ := h ev (List.mem_cons_self ev rest)
    rw [runWalk]
    have hstep : walkStep sys sources st ev = some st := by
      simp [walkStep, hinfo, hsym]
    simp only [hstep]
    exact ih (fun e he => h e (List.mem_cons_of_mem ev he))

/-! ## Inverting a successful `compile` -/

theorem extgopath_mem_assembleArgs (sys : Sys)
    (folder repo image remote branch pack deps outPrefix : String)
    (verbose steps race : Bool) (targets : List String) (st : PlanState) :
    ("EXT_GOPATH=" ++ goStringsJoin st.paths ":") ∈
      assembleArgs sys folder repo image remote branch pack deps outPrefix
        verbose steps race targets st := by
  rw [assembleArgs]
  simp

theorem targets_mem_assembleArgs (sys : Sys)
    (folder repo image remote branch pack deps outPrefix : String)
    (verbose steps race : Bool) (targets : List String) (st : PlanState) :
    ("TARGETS=" ++ goReplaceAll (goStringsJoin targets " ") "*" ".") ∈
      assembleArgs sys folder repo image remote branch pack deps outPrefix
        verbose steps race targets st := by
  rw [assembleArgs]
  simp

theorem assembleArgs_ends (sys : Sys)
    (folder repo image remote branch pack deps outPrefix : String)
    (verbose steps race : Bool) (targets : List String) (st : PlanState) :
    ∃ front, assembleArgs sys folder repo image remote branch pack deps outPrefix
        verbose steps race targets st = front ++ [image, repo] := by
  rw [assembleArgs]
  exact ⟨_, rfl⟩

/-- Anatomy of a successful `compile`: the result is an assembled
argument list; a non-local reference passes through unresolved with no
mounts, a local one is replaced by the import-path resolution and
carries the planner's state. -/
theorem compile_ok_inv {sys : Sys}
    {repo image remote branch pack deps dest outPrefix : String}
    {verbose steps race : Bool} {targets : List String} {args : List String}
    (hok : compile sys repo image remote branch pack deps dest outPrefix
      verbose steps race targets = .ok args) :
    ∃ folder repo' st,
      args = assembleArgs sys folder repo' image remote branch pack deps outPrefix
        verbose steps race targets st ∧
      (isLocal repo = false → st = (⟨[], [], []⟩ : PlanState) ∧ repo' = repo) ∧
      (isLocal repo = true → planMounts sys = some st ∧
        ∃ path, sys.absPath repo = some path ∧ sys.importDir path = some repo') := by
  cases hf : resolveFolder sys dest with
  | error e =>
    simp only [compile, hf] at hok
    exact Except.noConfusion hok
  | ok folder =>
    simp only [compile, hf] at hok
    by_cases hloc : isLocal repo = true
    · rw [if_pos hloc] at hok
      cases habs : sys.absPath repo with
      | none =>
        simp only [habs] at hok
        exact Except.noConfusion hok
      | some path =>
        simp only [habs] at hok
        cases hstat : sys.statFn path with
        | none =>
          simp only [hstat] at hok
          exact Except.noConfusion hok
        | some fi =>
          simp only [hstat] at hok
          by_cases hdir : fi.isDir = false
          · rw [if_pos hdir] at hok
            exact Except.noConfusion hok
          · rw [if_neg hdir] at hok
            cases himp : sys.importDir path with
            | none =>
              simp only [himp] at hok
              exact Except.noConfusion hok
            | some repo' =>
              simp only [himp] at hok
              cases hpm : planMounts sys with
              | none =>
                simp only [hpm] at hok
                exact Except.noConfusion hok
              | some st =>
                simp only [hpm] at hok
                injection hok with h
                subst h
                exact ⟨folder, repo', st, rfl,
                  fun hnl => absurd hloc (by simp [hnl]),
                  fun _ => ⟨rfl, path, rfl, himp⟩⟩
    · rw [if_neg hloc] at hok
      injection hok with h
      subst h
      exact ⟨folder, repo, ⟨[], [], []⟩, rfl, fun _ => ⟨rfl, rfl⟩,
        fun hl => absurd hl hloc⟩


/-! ## Concrete worlds used by witnesses and counterexamples -/

/-- A world where every external operation succeeds and walking any
tree reports no entries; `GOPATH` is empty. -/
def sysNoLinks : Sys :=
  ⟨some "/cwd", fun s => some s, fun _ => some ⟨true, false⟩,
   fun _ => none, fun _ => some "github.com/u/mylib", fun _ => [], "", "/tmp"⟩

/-- A world with one workspace root `/g1` whose source tree holds one
symlink `lib` resolving to the outside directory `/elsewhere/lib`. -/
def sysOneLink : Sys :=
  ⟨some "/cwd", fun s => some s, fun _ => some ⟨true, false⟩,
   fun _ => some "/elsewhere/lib", fun _ => some "github.com/u/mylib",
   fun s => if s = "/g1/src" then [⟨"/g1/src/lib", some ⟨false, true⟩⟩] else [],
   "/g1", "/tmp"⟩

/-- A world whose single workspace root `/nope` has no `src` subtree:
`filepath.Walk` delivers exactly one callback call with a nil
`FileInfo`. -/
def sysMissingSrc : Sys :=
  ⟨some "/cwd", fun s => some s, fun _ => some ⟨true, false⟩,
   fun _ => none, fun _ => some "example.com/pkg",
   fun s => [⟨s, none⟩], "/nope", "/tmp"⟩

/-- Dependency-loop operations that all succeed. -/
def opsAll : DepOps := ⟨true, fun _ => true, fun _ => true, fun _ => true⟩

/-- Dependency-loop operations where every `http.Get` fails. -/
def opsFetchFail : DepOps := ⟨true, fun _ => true, fun _ => false, fun _ => true⟩

/-- Dependency-loop operations where every `io.Copy` fails. -/
def opsCopyFail : DepOps := ⟨true, fun _ => true, fun _ => true, fun _ => false⟩

/-- The argument list of a successful `compile` (empty on a fatal
exit). -/
def okArgs (r : Except Fatal (List String)) : List String :=
  match r with
  | .ok args => args
  | .error _ => []

/-! ## Claims -/

/-- Claim C1, counterexample: the claim says the `EXT_GOPATH` entry is
absent for every non-local reference, but for the non-local reference
`github.com/a/b` the assembled invocation still contains the entry
(with empty value): line 229 appends it unconditionally. -/
theorem c1_ext_gopath_counterexample :
    isLocal "github.com/a/b" = false ∧
    "EXT_GOPATH=" ∈ okArgs (compile sysNoLinks "github.com/a/b" "karalabe/xgo-latest"
      "" "" "" "" "" "" false false false ["*/*"]) :=
  ⟨rfl, by decide⟩

/-- Claim C1, amended: the environment entry carrying the joined
mount-path prefixes (`EXT_GOPATH`) is included in the assembled
parameter list for every build, local or not; for a non-local
reference it is present with an empty prefix list (empty value). -/
theorem c1_ext_gopath_amended (sys : Sys)
    (repo image remote branch pack deps dest outPrefix : String)
    (verbose steps race : Bool) (targets args : List String)
    (hok : compile sys repo image remote branch pack deps dest outPrefix
      verbose steps race targets = .ok args) :
    ∃ ps, ("EXT_GOPATH=" ++ goStringsJoin ps ":") ∈ args ∧
      (isLocal repo = false → ps = []) := by
  obtain ⟨folder, repo', st, rfl, hnl, -⟩ := compile_ok_inv hok
  exact ⟨st.paths, extgopath_mem_assembleArgs _ _ _ _ _ _ _ _ _ _ _ _ _ _,
    fun h => by rw [(hnl h).1]⟩

/-- Witness for the amended C1 at a concrete non-local invocation. -/
theorem c1_ext_gopath_amended_witness :
    ∃ ps, ("EXT_GOPATH=" ++ goStringsJoin ps ":") ∈
        okArgs (compile sysNoLinks "github.com/a/b" "img" "" "" "" "" "" ""
          false false false ["*/*"]) ∧
      (isLocal "github.com/a/b" = false → ps = []) :=
  c1_ext_gopath_amended sysNoLinks "github.com/a/b" "img" "" "" "" "" "" ""
    false false false ["*/*"] _ rfl

/-- Claim C2 (the code contradicts it): for a workspace root whose
`src` subtree does not exist, `filepath.Walk` calls the callback with
a nil `FileInfo` and line 182 dereferences it (`info.Mode()`), so the
planner panics and the run aborts instead of completing normally with
zero symlink mounts plus the root mount. -/
theorem c2_missing_src_panics :
    planMounts sysMissingSrc = none ∧
    compile sysMissingSrc "./pkg" "img" "" "" "" "" "" "" false false false ["*/*"] =
      .error .nilInfoPanic :=
  ⟨rfl, rfl⟩

/-- Claim C3: per dependency entry, a whitespace-only entry is
ignored; a reference whose derived base filename is already in the
cache is not fetched and reported "already cached"; an absent one is
fetched exactly once with its file created and reported "newly
cached"; and two references with the same base filename collapse to
one cached artifact, the second hitting the first's output. -/
theorem c3_dep_cache (ops : DepOps) (cacheDir : String) :
    (∀ st dep, (goTrimSpace dep).data = [] → depStep ops cacheDir st dep = (st, none)) ∧
    (∀ st dep url, goTrimSpace dep = url → url.data ≠ [] → goBase url ∈ st.files →
      depStep ops cacheDir st dep =
        ({ st with reports := st.reports ++ [.alreadyCached (goJoin [cacheDir, goBase url])] },
         none)) ∧
    (∀ st dep url, goTrimSpace dep = url → url.data ≠ [] → goBase url ∉ st.files →
      ops.createOk (goJoin [cacheDir, goBase url]) = true → ops.fetchOk url = true →
      ops.copyOk url = true →
      depStep ops cacheDir st dep =
        (⟨st.files ++ [goBase url],
          st.reports ++ [.downloading url, .newlyCached (goJoin [cacheDir, goBase url])],
          st.fetches ++ [url]⟩, none)) ∧
    (∀ u v files0, goTrimSpace u = u → goTrimSpace v = v → u.data ≠ [] → v.data ≠ [] →
      goBase u = goBase v → goBase u ∉ files0 →
      ops.createOk (goJoin [cacheDir, goBase u]) = true → ops.fetchOk u = true →
      ops.copyOk u = true →
      runDepList ops cacheDir ⟨files0, [], []⟩ [u, v] =
        (⟨files0 ++ [goBase u],
          [.downloading u, .newlyCached (goJoin [cacheDir, goBase u]),
           .alreadyCached (goJoin [cacheDir, goBase v])],
          [u]⟩, none)) := by
  refine ⟨depStep_empty ops cacheDir, depStep_hit ops cacheDir, depStep_miss_ok ops cacheDir, ?_⟩
  intro u v files0 htu htv hnu hnv hbase hmem hc hf hcp
  have h1 := depStep_miss_ok ops cacheDir ⟨files0, [], []⟩ u u htu hnu hmem hc hf hcp
  have hmem2 : goBase v ∈ files0 ++ [goBase u] := by
    rw [← hbase]
    simp
  have h2 := depStep_hit ops cacheDir
    ⟨files0 ++ [goBase u],
     [.downloading u, .newlyCached (goJoin [cacheDir, goBase u])], [u]⟩ v v htv hnv hmem2
  have e1 : runDepList ops cacheDir ⟨files0, [], []⟩ [u, v] =
      runDepList ops cacheDir ⟨files0 ++ [goBase u],
        [.downloading u, .newlyCached (goJoin [cacheDir, goBase u])], [u]⟩ [v] := by
    rw [runDepList, h1]
    rfl
  have e2 : runDepList ops cacheDir ⟨files0 ++ [goBase u],
        [.downloading u, .newlyCached (goJoin [cacheDir, goBase u])], [u]⟩ [v] =
      (⟨files0 ++ [goBase u],
        [.downloading u, .newlyCached (goJoin [cacheDir, goBase u]),
         .alreadyCached (goJoin [cacheDir, goBase v])], [u]⟩, none) := by
    rw [runDepList, h2]
    rfl
  exact e1.trans e2

/-- Witness for C3: the duplicate-reference scenario from the spec,
`"http://x/a.tgz http://x/a.tgz"`: one fetch, one artifact, second
entry a cache hit. -/
theorem c3_dep_cache_witness :
    runDepList opsAll "/tmp/xgo-cache" ⟨[], [], []⟩ ["http://x/a.tgz", "http://x/a.tgz"] =
      (⟨["a.tgz"],
        [.downloading "http://x/a.tgz", .newlyCached "/tmp/xgo-cache/a.tgz",
         .alreadyCached "/tmp/xgo-cache/a.tgz"],
        ["http://x/a.tgz"]⟩, none) := by
  have h := (c3_dep_cache opsAll "/tmp/xgo-cache").2.2.2 "http://x/a.tgz" "http://x/a.tgz"
    [] (by decide) (by decide) (by decide) (by decide) rfl (by decide) rfl rfl rfl
  exact h.trans (by decide)

/-- Claim C4: the ordinal `<k>` in the sandbox paths is the 1-based
global discovery position — starting at 1, strictly increasing, never
reused, shared across all roots and all symlink and root-tree mounts —
and consequently all sandbox mount paths of one invocation are
pairwise distinct. -/
theorem c4_counter_unique (sys : Sys) (st : PlanState)
    (hgood : ∀ root ∈ goSplit sys.gopath ':', ∀ ev ∈ sys.walk (goJoin [root, "src"]),
      goodEvent (goJoin [root, "src"]) ev)
    (hok : planMounts sys = some st) :
    st.locals.length = st.mounts.length ∧ st.paths.length = st.mounts.length ∧
    (∀ i (h : i < st.mounts.length), ∃ r,
      (st.mounts.get ⟨i, h⟩).data = "/ext-go/".data ++ (itoa (i + 1)).data ++ '/' :: r) ∧
    st.mounts.Nodup := by
  rw [planMounts] at hok
  have hms : MountShapes st := runRoots_shapes hgood mountShapes_nil hok
  exact ⟨hms.1, hms.2.1, hms.2.2, mountShapes_nodup st hms⟩

/-- Witness for C4 at a concrete single-root, no-symlink world. -/
theorem c4_counter_unique_witness :
    (["src"] : List String).length = (["/ext-go/1/src"] : List String).length ∧
    (["/ext-go/1"] : List String).length = (["/ext-go/1/src"] : List String).length ∧
    (∀ i (h : i < (["/ext-go/1/src"] : List String).length), ∃ r,
      ((["/ext-go/1/src"] : List String).get ⟨i, h⟩).data =
        "/ext-go/".data ++ (itoa (i + 1)).data ++ '/' :: r) ∧
    (["/ext-go/1/src"] : List String).Nodup :=
  c4_counter_unique sysNoLinks ⟨["src"], ["/ext-go/1/src"], ["/ext-go/1"]⟩
    (fun root hr ev hev => absurd hev (List.not_mem_nil ev)) rfl

/-- Claim C5: during the walk, a symlink whose resolution fails, or
whose resolved target is not a directory, is skipped silently; one
whose target lies inside the current source tree yields no MountPoint;
and a symlink resolving to a directory outside the tree yields exactly
the MountPoint with host path the resolved target and sandbox path
`/ext-go/<k>/src/<suffix>` for its relative suffix under the tree. -/
theorem c5_symlink_filtering (sys : Sys) (sources : String) (st : PlanState)
    (ev : WalkEvent) (fi : FileInfo) (hinfo : ev.info = some fi)
    (hsym : fi.isSymlink = true) :
    (sys.evalSymlinks ev.path = none → walkStep sys sources st ev = some st) ∧
    (∀ target, sys.evalSymlinks ev.path = some target →
      (sys.statFn target = none ∨ ∃ ti, sys.statFn target = some ti ∧ ti.isDir = false) →
      walkStep sys sources st ev = some st) ∧
    (∀ target, sys.evalSymlinks ev.path = some target →
      (target = sources ∨ ∃ relT : String, target = sources ++ "/" ++ relT) →
      walkStep sys sources st ev = some st) ∧
    (∀ target ti rel, sys.evalSymlinks ev.path = some target →
      sys.statFn target = some ti → ti.isDir = true →
      hasPrefixStr target sources = false →
      ev.path.data = sources.data ++ '/' :: rel →
      (∀ seg ∈ splitOnChar '/' rel, goodSeg seg) →
      walkStep sys sources st ev = some
        ⟨st.locals ++ [target],
         st.mounts ++ [⟨"/ext-go/".data ++ (itoa (st.locals.length + 1)).data
           ++ '/' :: ("src".data ++ '/' :: rel)⟩],
         st.paths ++ [⟨"/ext-go/".data ++ (itoa (st.locals.length + 1)).data⟩]⟩) := by
  have hsymf : ¬(fi.isSymlink = false) := by simp [hsym]
  refine ⟨?_, ?_, ?_, ?_⟩
  · intro hres
    simp only [walkStep, hinfo, hres]
    rw [if_neg hsymf]
  · intro target hres hstat
    simp only [walkStep, hinfo, hres]
    rw [if_neg hsymf]
    rcases hstat with h | ⟨ti, hti, hdir⟩
    · simp only [h]
    · simp only [hti]
      rw [if_pos hdir]
  · intro target hres hin
    simp only [walkStep, hinfo, hres]
    rw [if_neg hsymf]
    cases hstat : sys.statFn target with
    | none => rfl
    | some ti =>
      by_cases hdir : ti.isDir = false
      · simp [hdir]
      · have hpre : hasPrefixStr target sources = true := by
          rcases hin with rfl | ⟨relT, rfl⟩
          · exact List.isPrefixOf_iff_prefix.2 (List.prefix_refl _)
          · rw [hasPrefixStr]
            refine List.isPrefixOf_iff_prefix.2 ?_
            rw [String.data_append, String.data_append, List.append_assoc]
            exact List.prefix_append _ _
        simp [hdir, hpre]
  · intro target ti rel hres hstat hdir hpre hpath hgs
    simp only [walkStep, hinfo, hres, hstat]
    rw [if_neg hsymf, if_neg (by simp [hdir]), if_neg (by simp [hpre])]
    have hpref : sources.data.isPrefixOf ev.path.data = true := by
      rw [hpath]
      exact List.isPrefixOf_iff_prefix.2 (List.prefix_append _ _)
    have htrim : trimPrefixStr ev.path sources = ⟨'/' :: rel⟩ := by
      rw [trimPrefixStr, if_pos hpref, hpath, List.drop_left]
    rw [htrim]
    have e1 : goJoin ["/ext-go", itoa (st.locals ++ [target]).length, "src", ⟨'/' :: rel⟩]
        = (⟨"/ext-go/".data ++ (itoa (st.locals.length + 1)).data
            ++ '/' :: ("src".data ++ '/' :: rel)⟩ : String) := by
      apply String.ext
      rw [List.length_append]
      exact goJoin_extgo_src_rel (st.locals.length + 1) rel hgs
    have e2 : goJoin ["/ext-go", itoa (st.locals ++ [target]).length]
        = (⟨"/ext-go/".data ++ (itoa (st.locals.length + 1)).data⟩ : String) := by
      apply String.ext
      rw [List.length_append]
      exact goJoin_extgo (st.locals.length + 1)
    rw [e1, e2]

/-- Witness for C5: the outside-directory case at a concrete symlink
`/g1/src/lib` resolving to `/elsewhere/lib`. -/
theorem c5_symlink_filtering_witness :
    walkStep sysOneLink "/g1/src" ⟨[], [], []⟩ ⟨"/g1/src/lib", some ⟨false, true⟩⟩ =
      some ⟨["/elsewhere/lib"], ["/ext-go/1/src/lib"], ["/ext-go/1"]⟩ := by
  have h := (c5_symlink_filtering sysOneLink "/g1/src" ⟨[], [], []⟩
    ⟨"/g1/src/lib", some ⟨false, true⟩⟩ ⟨false, true⟩ rfl rfl).2.2.2
    "/elsewhere/lib" ⟨true, false⟩ "lib".data rfl rfl rfl (by decide) (by decide)
    (by decide)
  exact h.trans (by decide)

/-- Claim C6: for a local directory reference, the reference passed on
is the workspace resolver's canonical import identity (never the raw
path), and the image followed by this resolved reference are the final
two positional arguments. -/
theorem c6_resolved_reference (sys : Sys)
    (repo image remote branch pack deps dest outPrefix : String)
    (verbose steps race : Bool) (targets args : List String) (path ident : String)
    (hloc : isLocal repo = true)
    (habs : sys.absPath repo = some path)
    (himp : sys.importDir path = some ident)
    (hok : compile sys repo image remote branch pack deps dest outPrefix
      verbose steps race targets = .ok args) :
    ∃ front, args = front ++ [image, ident] := by
  obtain ⟨folder, repo', st, rfl, -, hl⟩ := compile_ok_inv hok
  obtain ⟨-, path', habs', himp'⟩ := hl hloc
  have hpp : path' = path := by
    rw [habs] at habs'
    exact (Option.some.inj habs').symm
  subst hpp
  have hri : repo' = ident := by
    rw [himp] at himp'
    exact (Option.some.inj himp').symm
  subst hri
  exact assembleArgs_ends _ _ _ _ _ _ _ _ _ _ _ _ _ _

/-- Witness for C6 at a concrete local build. -/
theorem c6_resolved_reference_witness :
    ∃ front, okArgs (compile sysNoLinks "./mylib" "img" "" "" "" "" "" ""
        false false false ["*/*"]) = front ++ ["img", "github.com/u/mylib"] :=
  c6_resolved_reference sysNoLinks "./mylib" "img" "" "" "" "" "" ""
    false false false ["*/*"] _ "./mylib" "github.com/u/mylib" (by decide) rfl rfl rfl

/-- Claim C7: the `TARGETS` environment value is the comma-split
selector list rejoined with spaces with every `*` replaced by `.`
character-wise (so slash structure is preserved); the default `*/*`
becomes `./.`. -/
theorem c7_targets_normalization (sys : Sys)
    (targetsStr repo image remote branch pack deps dest outPrefix : String)
    (verbose steps race : Bool) (args : List String)
    (hok : compile sys repo image remote branch pack deps dest outPrefix
      verbose steps race (goSplit targetsStr ',') = .ok args) :
    ("TARGETS=" ++ starToDot (goStringsJoin (goSplit targetsStr ',') " ")) ∈ args ∧
    (targetsStr = "*/*" → "TARGETS=./." ∈ args) := by
  obtain ⟨folder, repo', st, rfl, -, -⟩ := compile_ok_inv hok
  have h := targets_mem_assembleArgs sys folder repo' image remote branch pack deps
    outPrefix verbose steps race (goSplit targetsStr ',') st
  rw [goReplaceAll_star] at h
  refine ⟨h, ?_⟩
  rintro rfl
  have he : ("TARGETS=" ++ starToDot (goStringsJoin (goSplit "*/*" ',') " "))
      = "TARGETS=./." := by decide
  exact he ▸ h

/-- Witness for C7 at the default selector list. -/
theorem c7_targets_normalization_witness :
    ("TARGETS=" ++ starToDot (goStringsJoin (goSplit "*/*" ',') " ")) ∈
      okArgs (compile sysNoLinks "github.com/a/b" "img" "" "" "" "" "" ""
        false false false (goSplit "*/*" ',')) ∧
    ("*/*" = "*/*" → "TARGETS=./." ∈
      okArgs (compile sysNoLinks "github.com/a/b" "img" "" "" "" "" "" ""
        false false false (goSplit "*/*" ','))) :=
  c7_targets_normalization sysNoLinks "*/*" "github.com/a/b" "img" "" "" "" "" "" ""
    false false false _ rfl

/-- Claim C8: a failure to create the cache directory, create an
output file, perform the fetch, or copy the stream is fatal and
immediate: the run aborts and no later dependency entry is
processed. -/
theorem c8_dep_failure_aborts (ops : DepOps) (tmpDir : String) :
    (∀ crossDeps files0, crossDeps ≠ "" → ops.mkdirOk = false →
      cacheDeps ops tmpDir crossDeps files0 = (⟨files0, [], []⟩, some .mkdirFailed)) ∧
    (∀ cacheDir st dep url, goTrimSpace dep = url → url.data ≠ [] →
      goBase url ∉ st.files →
      ((ops.createOk (goJoin [cacheDir, goBase url]) = false →
        (depStep ops cacheDir st dep).2 = some .createFailed) ∧
       (ops.createOk (goJoin [cacheDir, goBase url]) = true → ops.fetchOk url = false →
        (depStep ops cacheDir st dep).2 = some .fetchFailed) ∧
       (ops.createOk (goJoin [cacheDir, goBase url]) = true → ops.fetchOk url = true →
        ops.copyOk url = false →
        (depStep ops cacheDir st dep).2 = some .copyFailed))) ∧
    (∀ cacheDir st0 pre st1 d st2 e post,
      runDepList ops cacheDir st0 pre = (st1, none) →
      depStep ops cacheDir st1 d = (st2, some e) →
      runDepList ops cacheDir st0 (pre ++ d :: post) = (st2, some e)) := by
  refine ⟨?_, ?_, ?_⟩
  · intro crossDeps files0 hne hmk
    rw [cacheDeps, if_neg hne, if_pos hmk]
  · intro cacheDir st dep url htrim hne hmem
    refine ⟨?_, ?_, ?_⟩
    · intro hc
      rw [depStep_miss_createFail ops cacheDir st dep url htrim hne hmem hc]
    · intro hc hf
      rw [depStep_miss_fetchFail ops cacheDir st dep url htrim hne hmem hc hf]
    · intro hc hf hcp
      rw [depStep_miss_copyFail ops cacheDir st dep url htrim hne hmem hc hf hcp]
  · intro cacheDir st0 pre st1 d st2 e post hpre hd
    rw [runDepList_append_ok ops cacheDir st0 st1 pre (d :: post) hpre]
    exact runDepList_cons_fatal ops cacheDir st1 st2 d e post hd

/-- Witness for C8: a fetch failure on the first entry stops the loop
before the second entry. -/
theorem c8_dep_failure_aborts_witness :
    runDepList opsFetchFail "/tmp/xgo-cache" ⟨[], [], []⟩
      ([] ++ "http://x/a.tgz" :: ["http://y/b.tgz"]) =
      (⟨["a.tgz"], [.downloading "http://x/a.tgz"], []⟩, some .fetchFailed) :=
  (c8_dep_failure_aborts opsFetchFail "/tmp").2.2 "/tmp/xgo-cache" ⟨[], [], []⟩ []
    ⟨[], [], []⟩ "http://x/a.tgz" ⟨["a.tgz"], [.downloading "http://x/a.tgz"], []⟩
    .fetchFailed ["http://y/b.tgz"] rfl (by decide)

/-- Claim C9: cache-entry creation is not atomic with failure: the
file is created before the fetch, so whether the fetch request fails
(empty file) or the stream copy fails (partially written file), the
created file remains in the cache directory, and a subsequent run with
the same reference takes the cache-hit path and never re-fetches. -/
theorem c9_nonatomic_cache (ops1 ops2 : DepOps) (tmpDir u : String)
    (files0 : List String)
    (hsplit : goSplit u ' ' = [u]) (htrim : goTrimSpace u = u) (hne : u.data ≠ [])
    (hmem : goBase u ∉ files0) (hmk1 : ops1.mkdirOk = true)
    (hc : ops1.createOk (goJoin [depsCacheDir tmpDir, goBase u]) = true)
    (hmk2 : ops2.mkdirOk = true) :
    (ops1.fetchOk u = false →
      cacheDeps ops1 tmpDir u files0 =
        (⟨files0 ++ [goBase u], [.downloading u], []⟩, some .fetchFailed)) ∧
    (ops1.fetchOk u = true → ops1.copyOk u = false →
      cacheDeps ops1 tmpDir u files0 =
        (⟨files0 ++ [goBase u], [.downloading u], [u]⟩, some .copyFailed)) ∧
    cacheDeps ops2 tmpDir u (files0 ++ [goBase u]) =
      (⟨files0 ++ [goBase u],
        [.alreadyCached (goJoin [depsCacheDir tmpDir, goBase u])], []⟩, none) := by
  have hu : u ≠ "" := by
    intro he
    subst he
    exact hne rfl
  refine ⟨?_, ?_, ?_⟩
  · intro hf
    rw [cacheDeps, if_neg hu, if_neg (by simp [hmk1]), hsplit]
    have h1 := depStep_miss_fetchFail ops1 (depsCacheDir tmpDir) ⟨files0, [], []⟩ u u
      htrim hne hmem hc hf
    exact runDepList_cons_fatal ops1 (depsCacheDir tmpDir) _ _ u .fetchFailed [] h1
  · intro hf hcp
    rw [cacheDeps, if_neg hu, if_neg (by simp [hmk1]), hsplit]
    have h1 := depStep_miss_copyFail ops1 (depsCacheDir tmpDir) ⟨files0, [], []⟩ u u
      htrim hne hmem hc hf hcp
    exact runDepList_cons_fatal ops1 (depsCacheDir tmpDir) _ _ u .copyFailed [] h1
  · rw [cacheDeps, if_neg hu, if_neg (by simp [hmk2]), hsplit]
    have h2 := depStep_hit ops2 (depsCacheDir tmpDir) ⟨files0 ++ [goBase u], [], []⟩ u u
      htrim hne (by simp)
    rw [runDepList, h2]
    rfl

/-- Witness for C9 at a concrete reference: a fetch-failed first run
leaves `a.tgz` behind, a copy-failed first run likewise leaves it
behind (after its one fetch), and the subsequent run reports a cache
hit and fetches nothing. -/
theorem c9_nonatomic_cache_witness :
    cacheDeps opsFetchFail "/tmp" "http://x/a.tgz" [] =
      (⟨["a.tgz"], [.downloading "http://x/a.tgz"], []⟩, some .fetchFailed) ∧
    cacheDeps opsCopyFail "/tmp" "http://x/a.tgz" [] =
      (⟨["a.tgz"], [.downloading "http://x/a.tgz"], ["http://x/a.tgz"]⟩,
       some .copyFailed) ∧
    cacheDeps opsAll "/tmp" "http://x/a.tgz" ["a.tgz"] =
      (⟨["a.tgz"], [.alreadyCached "/tmp/xgo-cache/a.tgz"], []⟩, none) := by
  have h1 := c9_nonatomic_cache opsFetchFail opsAll "/tmp" "http://x/a.tgz" []
    (by decide) (by decide) (by decide) (by decide) rfl rfl rfl
  have h2 := c9_nonatomic_cache opsCopyFail opsAll "/tmp" "http://x/a.tgz" []
    (by decide) (by decide) (by decide) (by decide) rfl rfl rfl
  exact ⟨(h1.1 rfl).trans (by decide), (h2.2.1 rfl rfl).trans (by decide),
    h1.2.2.trans (by decide)⟩

/-- Claim C10: with `GOPATH` unset/empty, the split yields the single
empty root, and (when the relative tree `src` contains no symlinks)
the planner emits exactly one root MountPoint whose host path is the
relative, unresolved path `src` and whose sandbox path is
`/ext-go/1/src`. -/
theorem c10_empty_gopath (sys : Sys) (hgo : sys.gopath = "")
    (hwalk : ∀ ev ∈ sys.walk "src", ∃ fi, ev.info = some fi ∧ fi.isSymlink = false) :
    goSplit sys.gopath ':' = [""] ∧
    planMounts sys = some ⟨["src"], ["/ext-go/1/src"], ["/ext-go/1"]⟩ := by
  refine ⟨by rw [hgo]; rfl, ?_⟩
  rw [planMounts, hgo]
  show runRoots sys ⟨[], [], []⟩ [""] = _
  rw [runRoots]
  simp only [planRoot]
  rw [show goJoin ["", "src"] = "src" from rfl]
  rw [runWalk_skip sys "src" ⟨[], [], []⟩ (sys.walk "src") hwalk]
  rfl

/-- Witness for C10 at a concrete world with empty `GOPATH`. -/
theorem c10_empty_gopath_witness :
    goSplit sysNoLinks.gopath ':' = [""] ∧
    planMounts sysNoLinks = some ⟨["src"], ["/ext-go/1/src"], ["/ext-go/1"]⟩ :=
  c10_empty_gopath sysNoLinks rfl (fun ev hev => absurd hev (List.not_mem_nil ev))

end Xgo
